import Mathlib

/-!
# Verification of the Fintracker statement-ingestion core

A shallow embedding, in Lean 4, of the Python sources of the Fintracker
repository (src/database.py, src/categorizer.py, src/parser.py, main.py),
together with theorems settling the frozen claims about the program.

Modelling conventions:
* SQLite tables become Lean lists of rows; AUTOINCREMENT ids become an
  explicit next-id counter per table (SQLite assigns 1, 2, 3, ...).
* Monetary amounts (Python floats parsed from text with exactly two
  decimals) are modelled exactly as integer cents: 37.67 becomes 3767.
* The md5 content hash of database.py is modelled as the identity
  encoding of the hashed string: md5 is a deterministic function of its
  input, which is the only property the program relies on (md5 collisions
  between distinct inputs are not modelled).
* Python `try ... except` around a unique insert becomes an explicit
  test of the uniqueness condition, mirroring exactly when sqlite3 raises
  IntegrityError.  In particular, SQLite's UNIQUE treats NULLs as
  distinct, so a UNIQUE(name, parent_id) constraint never fires when
  parent_id is NULL; the model reproduces this.
* Strings are ASCII in all inputs the program handles; character classes
  (whitespace, digits, letters, lowercasing) are modelled at ASCII scope.
-/

/-! ## Character classes and small string utilities -/

/-- Python whitespace class `\s` at ASCII scope: space, \t, \n, \v, \f, \r. -/
def isWs (c : Char) : Bool :=
  c.toNat == 32 || c.toNat == 9 || c.toNat == 10 || c.toNat == 11 ||
  c.toNat == 12 || c.toNat == 13

/-- Regex class `\d` (ASCII digits). -/
def isDigitC (c : Char) : Bool := 48 ≤ c.toNat && c.toNat ≤ 57

/-- Regex class `[A-Z]`. -/
def isUpperC (c : Char) : Bool := 65 ≤ c.toNat && c.toNat ≤ 90

/-- Regex class `[a-z]`. -/
def isLowerC (c : Char) : Bool := 97 ≤ c.toNat && c.toNat ≤ 122

/-- ASCII lowercasing of one character (Python `str.lower()` scope used
by this program's inputs). -/
def lowerC (c : Char) : Char :=
  if 65 ≤ c.toNat && c.toNat ≤ 90 then Char.ofNat (c.toNat + 32) else c

/-- Python `str.lower()` at ASCII scope. -/
def strLower (s : String) : String := ⟨s.data.map lowerC⟩

/-- Does `s` contain `pat` as a contiguous substring?  Models the Python
`pat in s` test on strings. -/
def hasInfix : List Char → List Char → Bool
  | [], pat => pat.isEmpty
  | c :: t, pat => pat.isPrefixOf (c :: t) || hasInfix t pat

/-- Python `pat in s` on strings. -/
def strContains (s pat : String) : Bool := hasInfix s.data pat.data

/-- Python `str.strip()` (ASCII whitespace scope): drop leading and
trailing whitespace. -/
def dropTrailWs : List Char → List Char
  | [] => []
  | c :: t =>
      match dropTrailWs t with
      | [] => if isWs c then [] else [c]
      | r => c :: r

/-- Python `str.strip()`. -/
def pyStrip (s : String) : String := ⟨dropTrailWs (s.data.dropWhile isWs)⟩

/-- The decimal digit character for `n % 10`. -/
def digitChar (n : Nat) : Char :=
  match n % 10 with
  | 0 => '0' | 1 => '1' | 2 => '2' | 3 => '3' | 4 => '4'
  | 5 => '5' | 6 => '6' | 7 => '7' | 8 => '8' | _ => '9'

/-- Numeric value of an ASCII digit character. -/
def digitVal (c : Char) : Nat := c.toNat - 48

/-- Decimal digits of `n`, most significant first (fuel-indexed so the
definition reduces by `rfl`; the fuel `n + 1` always suffices). -/
def natDigitsAux : Nat → Nat → List Char
  | 0, _ => []
  | fuel + 1, n =>
      if n < 10 then [digitChar n]
      else natDigitsAux fuel (n / 10) ++ [digitChar (n % 10)]

/-- Decimal digits of `n`, most significant first. -/
def natDigits (n : Nat) : List Char := natDigitsAux (n + 1) n

/-- Decimal rendering of a natural number. -/
def natStr (n : Nat) : String := ⟨natDigits n⟩

/-- Two-digit zero-padded rendering (strftime `%m` / `%d`). -/
def pad2 (n : Nat) : String := if n < 10 then "0" ++ natStr n else natStr n

/-- Value of a list of decimal digit characters, most significant first. -/
def digitsVal (l : List Char) : Nat := l.foldl (fun acc c => acc * 10 + digitVal c) 0

/-! ## The ledger store (src/database.py) -/

/-- A row of the `accounts` table. -/
structure AccountRow where
  id : Nat
  account_number : String
  account_name : Option String
  account_type : Option String
  deriving Repr, DecidableEq

/-- A row of the `categories` table.  The `keywords` column stores a JSON
list or NULL; the JSON round trip is modelled by carrying the list. -/
structure CategoryRow where
  id : Nat
  name : String
  parent_id : Option Nat
  keywords : Option (List String)
  deriving Repr, DecidableEq

/-- A row of the `transactions` table. -/
structure TxRow where
  id : Nat
  account_id : Nat
  date : String
  description : String
  amount : Int
  balance : Option Int
  category_id : Option Nat
  hash : String
  deriving Repr, DecidableEq

/-- The whole SQLite database state. -/
structure DB where
  accounts : List AccountRow
  categories : List CategoryRow
  transactions : List TxRow
  nextAccountId : Nat
  nextCategoryId : Nat
  nextTxId : Nat
  deriving Repr, DecidableEq

/-- The freshly created database (`Database._create_tables`). -/
def emptyDB : DB := ⟨[], [], [], 1, 1, 1⟩

/-- Rendering of an amount for the hash string; deterministic stand-in
for Python's float formatting inside the f-string. -/
def amountRepr (amount : Int) : String :=
  (if amount < 0 then "-" else "") ++ natStr amount.natAbs

/-- The content hash of `Database.add_transaction`:
`md5(f"{account_id}|{date}|{description}|{amount}")`, with md5 modelled
as the identity encoding of the hashed string. -/
def txHash (account_id : Nat) (date description : String) (amount : Int) : String :=
  natStr account_id ++ "|" ++ date ++ "|" ++ description ++ "|" ++ amountRepr amount

/-- `Database.add_account`: `INSERT OR IGNORE` (ignored exactly when the
UNIQUE(account_number) constraint would fire), then
`SELECT id FROM accounts WHERE account_number = ?` and `fetchone()[0]`
(first row in scan order; the 0 default is unreachable since the row is
present after the insert). -/
def add_account (db : DB) (account_number : String)
    (account_name : Option String) (account_type : Option String) : DB × Nat :=
  let db' :=
    if db.accounts.any (fun a => a.account_number == account_number) then db
    else { db with
             accounts := db.accounts ++
               [⟨db.nextAccountId, account_number, account_name, account_type⟩],
             nextAccountId := db.nextAccountId + 1 }
  (db', ((db'.accounts.find? (fun a => a.account_number == account_number)).map
            (fun a => a.id)).getD 0)

/-- The stored `keywords` column: `json.dumps(keywords) if keywords else None`
(Python truthiness: `None` and `[]` both store NULL). -/
def storedKeywords : Option (List String) → Option (List String)
  | none => none
  | some [] => none
  | some l => some l

/-- `Database.add_category`: try the INSERT; sqlite3 raises
IntegrityError exactly when some existing row matches UNIQUE(name,
parent_id) with a non-NULL parent_id (SQLite treats NULLs as distinct in
UNIQUE constraints, so a NULL parent never conflicts); on conflict run
`SELECT id FROM categories WHERE name = ? AND parent_id IS ?` and return
`fetchone()[0]` (the 0 default is unreachable in the conflict branch). -/
def add_category (db : DB) (name : String) (parent_id : Option Nat)
    (keywords : Option (List String)) : DB × Nat :=
  if db.categories.any
       (fun c => c.name == name && c.parent_id == parent_id && parent_id.isSome) then
    (db, ((db.categories.find? (fun c => c.name == name && c.parent_id == parent_id)).map
            (fun c => c.id)).getD 0)
  else
    ({ db with
         categories := db.categories ++
           [⟨db.nextCategoryId, name, parent_id, storedKeywords keywords⟩],
         nextCategoryId := db.nextCategoryId + 1 },
     db.nextCategoryId)

/-- `Database.add_transaction`: compute the content hash, insert unless
the UNIQUE(hash) constraint fires, in which case report `None` ("not
inserted - duplicate") and leave the table unchanged. -/
def add_transaction (db : DB) (account_id : Nat) (date description : String)
    (amount : Int) (balance : Option Int) (category_id : Option Nat) :
    DB × Option Nat :=
  let h := txHash account_id date description amount
  if db.transactions.any (fun t => t.hash == h) then (db, none)
  else
    ({ db with
         transactions := db.transactions ++
           [⟨db.nextTxId, account_id, date, description, amount, balance, category_id, h⟩],
         nextTxId := db.nextTxId + 1 },
     some db.nextTxId)

/-- One output row of `Database.get_transactions` (the SELECT list). -/
structure TxView where
  id : Nat
  date : String
  description : String
  amount : Int
  balance : Option Int
  category : Option String
  parent_category : Option String
  account_number : Option String
  account_name : Option String
  deriving Repr, DecidableEq

/-- The three LEFT JOINs of `Database.get_transactions`: look up the
category by id (a NULL `category_id` joins nothing), its parent, and the
account row; absent matches leave NULL fields. -/
def enrich (db : DB) (t : TxRow) : TxView :=
  let c := t.category_id.bind (fun cid => db.categories.find? (fun r => r.id == cid))
  let pc := c.bind (fun cr => cr.parent_id.bind
              (fun p => db.categories.find? (fun r => r.id == p)))
  let a := db.accounts.find? (fun r => r.id == t.account_id)
  ⟨t.id, t.date, t.description, t.amount, t.balance,
   c.map (fun r => r.name), pc.map (fun r => r.name),
   a.map (fun r => r.account_number), a.bind (fun r => r.account_name)⟩

/-- Date-descending comparison used by `ORDER BY t.date DESC`. -/
def dateDesc (x y : TxRow) : Prop := y.date ≤ x.date

instance : DecidableRel dateDesc := fun x y => inferInstanceAs (Decidable (y.date ≤ x.date))

/-- The optional `WHERE t.account_id = ?` of `Database.get_transactions`
(`if account_id:` is Python truthiness, so `0`/`None` disable it). -/
def txFilter (db : DB) : Option Nat → List TxRow
  | some a => if a ≠ 0 then db.transactions.filter (fun t => t.account_id == a)
              else db.transactions
  | none => db.transactions

/-- `Database.get_transactions`: optional account filter, `ORDER BY
t.date DESC`, LEFT-JOIN enrichment, and an optional `LIMIT` (again
Python truthiness). -/
def get_transactions (db : DB) (account_id : Option Nat) (limit : Option Nat) :
    List TxView :=
  let out := (List.insertionSort dateDesc (txFilter db account_id)).map (enrich db)
  match limit with
  | some l => if l ≠ 0 then out.take l else out
  | none => out

/-- `Database.get_categories`: all category rows in stored order. -/
def get_categories (db : DB) : List CategoryRow := db.categories

/-- `Database.update_account_name`: UPDATE by account number, reporting
whether any row matched. -/
def update_account_name (db : DB) (account_number : String) (custom_name : String) :
    DB × Bool :=
  ({ db with
       accounts := db.accounts.map (fun a =>
         if a.account_number == account_number
         then { a with account_name := some custom_name } else a) },
   db.accounts.any (fun a => a.account_number == account_number))

/-! ## The categorizer (src/categorizer.py) -/

/-- Does category `c` match the lowercased description `dl`?  Mirrors the
inner loop of `Categorizer.categorize`: a category whose `keywords`
column is falsy is skipped, otherwise any keyword occurring (lowercased)
as a substring is a hit. -/
def catHit (dl : String) (c : CategoryRow) : Bool :=
  match c.keywords with
  | none => false
  | some kws => kws.any (fun k => strContains dl (strLower k))

/-- The scan of `Categorizer.categorize` over the loaded category list,
in loaded order: return the id of the first category with a keyword hit. -/
def categorizeLoop (dl : String) : List CategoryRow → Option Nat
  | [] => none
  | c :: rest =>
      match c.keywords with
      | none => categorizeLoop dl rest
      | some kws =>
          match kws.find? (fun k => strContains dl (strLower k)) with
          | some _ => some c.id
          | none => categorizeLoop dl rest

/-- `Categorizer.categorize`: lowercase the description, scan the
in-memory category snapshot in loaded order, return the first hit's id
or `none` ("uncategorized"). -/
def categorize (cats : List CategoryRow) (description : String) : Option Nat :=
  categorizeLoop (strLower description) cats

/-! ## The ingestion pipeline loop (main.py, parse_pdf) -/

/-- A transaction record produced by the parser. -/
structure ParsedTx where
  date : String
  description : String
  amount : Int
  balance : Option Int
  deriving Repr, DecidableEq

/-- The account metadata returned by `CIBCParser.extract_account_info`. -/
structure AccountInfo where
  account_number : String
  account_name : Option String
  account_type : String
  deriving Repr, DecidableEq

/-- The per-transaction loop of `parse_pdf` in main.py: categorize each
parsed transaction and add it, counting the inserts that report a new
row id.  `cat` abstracts `categorizer.categorize` (a function of the
description). -/
def ingestLoop (aid : Nat) (cat : String → Option Nat) :
    List ParsedTx → DB × Nat → DB × Nat
  | [], acc => acc
  | tx :: rest, acc =>
      ingestLoop aid cat rest
        (let r := add_transaction acc.1 aid tx.date tx.description tx.amount
                    tx.balance (cat tx.description)
         (r.1, acc.2 + if r.2.isSome then 1 else 0))

/-- `parse_pdf` of main.py, at the store boundary: register-or-fetch the
account from the extracted metadata, then ingest the parsed transactions
with categorization, returning the new store and the net-new row count. -/
def parse_pdf (db : DB) (info : AccountInfo) (txs : List ParsedTx)
    (cat : String → Option Nat) : DB × Nat :=
  let r := add_account db info.account_number info.account_name (some info.account_type)
  ingestLoop r.2 cat txs (r.1, 0)

/-! ## Helper lemmas about the ledger store -/

theorem add_account_result_id (db : DB) (n : String) (nm ty : Option String) :
    (add_account db n nm ty).2 =
      (((add_account db n nm ty).1.accounts.find?
          (fun a => a.account_number == n)).map (fun a => a.id)).getD 0 := by
  by_cases h : db.accounts.any (fun a => a.account_number == n) = true
  · simp [add_account, h]
  · simp only [Bool.not_eq_true] at h
    simp [add_account, h]

theorem add_account_number_mem (db : DB) (n : String) (nm ty : Option String) :
    (add_account db n nm ty).1.accounts.any (fun a => a.account_number == n) = true := by
  by_cases h : db.accounts.any (fun a => a.account_number == n) = true
  · simp [add_account, h]
  · simp only [Bool.not_eq_true] at h
    simp [add_account, h]

theorem add_account_stable (db db2 : DB) (n : String) (nm ty nm' ty' : Option String)
    (h : db2.accounts = (add_account db n nm ty).1.accounts) :
    add_account db2 n nm' ty' = (db2, (add_account db n nm ty).2) := by
  have hany : db2.accounts.any (fun a => a.account_number == n) = true := by
    rw [h]; exact add_account_number_mem db n nm ty
  have h2 : add_account db2 n nm' ty' =
      (db2, ((db2.accounts.find? (fun a => a.account_number == n)).map
              (fun a => a.id)).getD 0) := by
    simp [add_account, hany]
  rw [h2, add_account_result_id db n nm ty, h]

theorem ingestLoop_preserves_hash (aid : Nat) (cat : String → Option Nat)
    (txs : List ParsedTx) (acc : DB × Nat) (h : String)
    (hp : acc.1.transactions.any (fun t => t.hash == h) = true) :
    (ingestLoop aid cat txs acc).1.transactions.any (fun t => t.hash == h) = true := by
  induction txs generalizing acc with
  | nil => simpa [ingestLoop] using hp
  | cons tx rest ih =>
    simp only [ingestLoop]
    apply ih
    by_cases hd : acc.1.transactions.any
        (fun t => t.hash == txHash aid tx.date tx.description tx.amount) = true
    · simpa [add_transaction, hd] using hp
    · simp only [Bool.not_eq_true] at hd
      simp [add_transaction, hd, List.any_append, hp]

theorem ingestLoop_hash_present (aid : Nat) (cat : String → Option Nat)
    (txs : List ParsedTx) (acc : DB × Nat) (tx : ParsedTx) (hm : tx ∈ txs) :
    (ingestLoop aid cat txs acc).1.transactions.any
      (fun t => t.hash == txHash aid tx.date tx.description tx.amount) = true := by
  induction txs generalizing acc with
  | nil => cases hm
  | cons tx0 rest ih =>
    rcases List.mem_cons.mp hm with heq | hmem
    · subst heq
      simp only [ingestLoop]
      apply ingestLoop_preserves_hash
      by_cases hd : acc.1.transactions.any
          (fun t => t.hash == txHash aid tx.date tx.description tx.amount) = true
      · simp [add_transaction, hd]
      · simp only [Bool.not_eq_true] at hd
        simp [add_transaction, hd, List.any_append]
    · simp only [ingestLoop]
      exact ih _ hmem

theorem ingestLoop_all_dup (aid : Nat) (cat : String → Option Nat)
    (txs : List ParsedTx) (acc : DB × Nat)
    (h : ∀ tx ∈ txs, acc.1.transactions.any
          (fun t => t.hash == txHash aid tx.date tx.description tx.amount) = true) :
    ingestLoop aid cat txs acc = acc := by
  induction txs generalizing acc with
  | nil => simp [ingestLoop]
  | cons tx rest ih =>
    have hd := h tx (by simp)
    have hstep : add_transaction acc.1 aid tx.date tx.description tx.amount
        tx.balance (cat tx.description) = (acc.1, none) := by
      simp [add_transaction, hd]
    simp only [ingestLoop, hstep, Option.isSome_none, Bool.false_eq_true, if_false,
      Nat.add_zero]
    exact ih (acc.1, acc.2) (fun t ht => h t (List.mem_cons_of_mem _ ht))

theorem ingestLoop_preserves_accounts (aid : Nat) (cat : String → Option Nat)
    (txs : List ParsedTx) (acc : DB × Nat) :
    (ingestLoop aid cat txs acc).1.accounts = acc.1.accounts := by
  induction txs generalizing acc with
  | nil => simp [ingestLoop]
  | cons tx rest ih =>
    simp only [ingestLoop]
    rw [ih]
    by_cases hd : acc.1.transactions.any
        (fun t => t.hash == txHash aid tx.date tx.description tx.amount) = true
    · simp [add_transaction, hd]
    · simp only [Bool.not_eq_true] at hd
      simp [add_transaction, hd]

/-- The store invariant that every stored transaction's `hash` column is
the content hash of its own (account, date, description, amount) tuple;
`add_transaction` only ever writes such rows. -/
def HashWF (db : DB) : Prop :=
  ∀ t ∈ db.transactions, t.hash = txHash t.account_id t.date t.description t.amount

/-- C1: inserting a transaction whose identity tuple (account, date,
description, amount) already exists in the store reports duplicate
(returns `none`, no new row id) and leaves the store unchanged; and the
ingestion pipeline (`parse_pdf`) run a second time over the same parsed
transactions (under any categorizations) inserts zero net-new rows and
leaves the store exactly as after the first run. -/
theorem add_transaction_duplicate_rejected_and_pipeline_idempotent :
    (∀ (db : DB) (a : Nat) (d ds : String) (amt : Int) (b : Option Int) (c : Option Nat),
      HashWF db →
      (∃ r ∈ db.transactions,
        r.account_id = a ∧ r.date = d ∧ r.description = ds ∧ r.amount = amt) →
      add_transaction db a d ds amt b c = (db, none))
    ∧
    (∀ (db : DB) (info : AccountInfo) (txs : List ParsedTx)
        (cat1 cat2 : String → Option Nat),
      parse_pdf (parse_pdf db info txs cat1).1 info txs cat2 =
        ((parse_pdf db info txs cat1).1, 0)) := by
  constructor
  · intro db a d ds amt b c hwf hex
    rcases hex with ⟨r, hmem, ha, hd, hds, hamt⟩
    have hany : db.transactions.any
        (fun t => t.hash == txHash a d ds amt) = true := by
      refine List.any_eq_true.mpr ⟨r, hmem, ?_⟩
      have hh := hwf r hmem
      rw [hh, ha, hd, hds, hamt]
      simp
    simp [add_transaction, hany]
  · intro db info txs cat1 cat2
    simp only [parse_pdf]
    have hacc : (ingestLoop
        (add_account db info.account_number info.account_name (some info.account_type)).2
        cat1 txs
        ((add_account db info.account_number info.account_name (some info.account_type)).1,
          0)).1.accounts =
        (add_account db info.account_number info.account_name
          (some info.account_type)).1.accounts :=
      ingestLoop_preserves_accounts _ _ _ _
    rw [add_account_stable db _ info.account_number info.account_name
        (some info.account_type) info.account_name (some info.account_type) hacc]
    apply ingestLoop_all_dup
    intro tx htx
    exact ingestLoop_hash_present _ cat1 txs _ tx htx

/-- The transaction row of the C1 witness store. -/
def c1Row : TxRow :=
  ⟨1, 1, "2025-01-01", "COFFEE", -500, none, none, txHash 1 "2025-01-01" "COFFEE" (-500)⟩

/-- A concrete store holding exactly `c1Row`. -/
def c1DB : DB := ⟨[], [], [c1Row], 1, 1, 2⟩

/-- Concrete instantiation of the C1 theorem: the store `c1DB` rejects a
second insert of the stored tuple unchanged, and the pipeline run twice
over one parsed transaction ends, after the second run, exactly where
the first run left it, with zero net-new rows. -/
theorem add_transaction_duplicate_rejected_witness :
    add_transaction c1DB 1 "2025-01-01" "COFFEE" (-500) none none = (c1DB, none)
    ∧ parse_pdf
        (parse_pdf emptyDB ⟨"87-40798", none, "CIBC Bank Account"⟩
          [⟨"2025-09-02", "VISA DEBIT RETAIL PURCHASE", -3767, some 89818⟩]
          (fun _ => none)).1
        ⟨"87-40798", none, "CIBC Bank Account"⟩
        [⟨"2025-09-02", "VISA DEBIT RETAIL PURCHASE", -3767, some 89818⟩]
        (fun _ => none) =
      ((parse_pdf emptyDB ⟨"87-40798", none, "CIBC Bank Account"⟩
          [⟨"2025-09-02", "VISA DEBIT RETAIL PURCHASE", -3767, some 89818⟩]
          (fun _ => none)).1, 0) := by
  constructor
  · refine add_transaction_duplicate_rejected_and_pipeline_idempotent.1
      c1DB 1 "2025-01-01" "COFFEE" (-500) none none ?_ ?_
    · intro t ht
      simp only [c1DB, List.mem_singleton] at ht
      rw [ht]; rfl
    · exact ⟨c1Row, by simp [c1DB], rfl, rfl, rfl, rfl⟩
  · exact add_transaction_duplicate_rejected_and_pipeline_idempotent.2 _ _ _ _ _

/-- C10: for an account number already present in the store,
register-or-fetch (`add_account`) with any (possibly different) name and
type returns the existing row's id and leaves the store — including the
stored `account_name` and `account_type` — completely unchanged
(`INSERT OR IGNORE` never updates on conflict). -/
theorem add_account_reregistration_no_update (db : DB) (n : String) (r : AccountRow)
    (nm ty : Option String)
    (h : db.accounts.find? (fun a => a.account_number == n) = some r) :
    add_account db n nm ty = (db, r.id) := by
  have hmem := List.mem_of_find?_eq_some h
  have hp := List.find?_some h
  have hany : db.accounts.any (fun a => a.account_number == n) = true :=
    List.any_eq_true.mpr ⟨r, hmem, hp⟩
  simp [add_account, hany, h]

/-- A concrete store with one registered account, for the C10 witness. -/
def c10DB : DB :=
  ⟨[⟨1, "87-40798", some "Old Name", some "CIBC Bank Account"⟩], [], [], 2, 1, 1⟩

/-- Concrete instantiation of the C10 theorem: re-registering account
"87-40798" with a different name and type returns id 1 and leaves the
store unchanged. -/
theorem add_account_reregistration_no_update_witness :
    add_account c10DB "87-40798" (some "New Name") (some "Other Type") = (c10DB, 1) :=
  add_account_reregistration_no_update c10DB "87-40798"
    ⟨1, "87-40798", some "Old Name", some "CIBC Bank Account"⟩
    (some "New Name") (some "Other Type") (by decide)

/-- C2 (failing input): the code is NOT idempotent on (name, parent) for
top-level categories.  Starting from the empty store, adding category
("Food", parent NULL) twice inserts two rows and returns a fresh id 2
the second time: SQLite's UNIQUE(name, parent_id) treats NULL parents as
distinct, so the IntegrityError branch (which would return the existing
id) is never reached for NULL parents. -/
theorem add_category_null_parent_duplicate_rows :
    (add_category emptyDB "Food" none none).2 = 1 ∧
    (add_category (add_category emptyDB "Food" none none).1 "Food" none none).2 = 2 ∧
    ((add_category (add_category emptyDB "Food" none none).1 "Food"
        none none).1.categories.map (fun c => (c.id, c.name, c.parent_id))) =
      [(1, "Food", none), (2, "Food", none)] := by
  decide

/-- C5: `categorize` scans the loaded category list in order and returns
the id of the first category having a non-empty keyword set with some
keyword occurring (case-insensitively) as a substring of the
description; with A (keywords ["shop"]) loaded before B (keywords
["shop", "mart"]), a description containing "mart shop" matches A, not
B; and with no hit anywhere the result is `none` (no error). -/
theorem categorize_first_match_wins :
    (∀ (cats : List CategoryRow) (description : String),
      categorize cats description =
        (cats.find? (fun c => catHit (strLower description) c)).map (fun c => c.id))
    ∧ categorize
        [⟨1, "A", none, some ["shop"]⟩, ⟨2, "B", none, some ["shop", "mart"]⟩]
        "PAID AT mart shop 24" = some 1
    ∧ categorize
        [⟨1, "A", none, some ["shop"]⟩, ⟨2, "B", none, some ["shop", "mart"]⟩]
        "UNRELATED VENDOR" = none := by
  refine ⟨?_, by decide, by decide⟩
  intro cats desc
  induction cats with
  | nil => simp [categorize, categorizeLoop]
  | cons c rest ih =>
    simp only [categorize] at ih ⊢
    cases hk : c.keywords with
    | none =>
      have hhit : catHit (strLower desc) c = false := by simp [catHit, hk]
      rw [List.find?_cons_of_neg _ (by simp [hhit])]
      simpa [categorizeLoop, hk] using ih
    | some kws =>
      cases hf : kws.find? (fun k => strContains (strLower desc) (strLower k)) with
      | none =>
        have hhit : catHit (strLower desc) c = false := by
          simp only [catHit, hk]
          exact List.any_eq_false.mpr (by simpa using List.find?_eq_none.mp hf)
        rw [List.find?_cons_of_neg _ (by simp [hhit])]
        simpa [categorizeLoop, hk, hf] using ih
      | some k =>
        have hhit : catHit (strLower desc) c = true := by
          simp only [catHit, hk]
          have hmemk := List.mem_of_find?_eq_some hf
          have hpk := List.find?_some hf
          exact List.any_eq_true.mpr ⟨k, hmemk, hpk⟩
        rw [List.find?_cons_of_pos _ hhit]
        simp [categorizeLoop, hk, hf]

instance : IsTotal TxRow dateDesc := ⟨fun a b => le_total b.date a.date⟩

instance : IsTrans TxRow dateDesc := ⟨fun _ _ _ hab hbc => le_trans hbc hab⟩

theorem txFilter_mem (db : DB) (aid : Option Nat) (t : TxRow)
    (h : t ∈ txFilter db aid) :
    t ∈ db.transactions ∧ ∀ a, aid = some a → a ≠ 0 → t.account_id = a := by
  cases aid with
  | none =>
    refine ⟨by simpa [txFilter] using h, ?_⟩
    intro a ha; cases ha
  | some a0 =>
    by_cases h0 : a0 ≠ 0
    · simp only [txFilter] at h
      rw [if_pos h0] at h
      rcases List.mem_filter.mp h with ⟨hmem, hpred⟩
      refine ⟨hmem, ?_⟩
      intro a ha _
      cases ha
      simpa using hpred
    · simp only [txFilter] at h
      rw [if_neg h0] at h
      refine ⟨h, ?_⟩
      intro a ha hne
      cases ha
      exact absurd hne h0

/-- C9: `get_transactions` always returns its rows in date-descending
order, each row is the LEFT-JOIN enrichment of a stored transaction
(respecting the optional account filter), and a transaction with no
category is enriched with NULL `category` and `parent_category` fields
rather than an error. -/
theorem get_transactions_sorted_joined (db : DB) (account_id limit : Option Nat) :
    List.Sorted (fun x y : TxView => y.date ≤ x.date)
      (get_transactions db account_id limit)
    ∧ (∀ v ∈ get_transactions db account_id limit,
        ∃ t ∈ db.transactions, v = enrich db t ∧
          (∀ a, account_id = some a → a ≠ 0 → t.account_id = a))
    ∧ (∀ t : TxRow, t.category_id = none →
        (enrich db t).category = none ∧ (enrich db t).parent_category = none) := by
  have hsortRows : List.Sorted dateDesc
      (List.insertionSort dateDesc (txFilter db account_id)) :=
    List.sorted_insertionSort dateDesc _
  have hsortOut : List.Sorted (fun x y : TxView => y.date ≤ x.date)
      ((List.insertionSort dateDesc (txFilter db account_id)).map (enrich db)) :=
    hsortRows.map (enrich db) (fun a b hab => hab)
  refine ⟨?_, ?_, ?_⟩
  · cases limit with
    | none => simpa [get_transactions] using hsortOut
    | some l =>
      by_cases hl : l ≠ 0
      · simp only [get_transactions]
        rw [if_pos hl]
        exact hsortOut.sublist (List.take_sublist _ _)
      · simp only [get_transactions]
        rw [if_neg hl]
        exact hsortOut
  · intro v hv
    have hv' : v ∈ (List.insertionSort dateDesc (txFilter db account_id)).map
        (enrich db) := by
      cases limit with
      | none => simpa [get_transactions] using hv
      | some l =>
        by_cases hl : l ≠ 0
        · simp only [get_transactions] at hv
          rw [if_pos hl] at hv
          exact List.mem_of_mem_take hv
        · simp only [get_transactions] at hv
          rw [if_neg hl] at hv
          exact hv
    rcases List.mem_map.mp hv' with ⟨t, htmem, hte⟩
    have htrows : t ∈ txFilter db account_id :=
      (List.Perm.mem_iff (List.perm_insertionSort dateDesc _)).mp htmem
    rcases txFilter_mem db account_id t htrows with ⟨h1, h2⟩
    exact ⟨t, h1, hte.symm, h2⟩
  · intro t ht
    constructor <;> simp [enrich, ht]

/-- An uncategorized transaction row for the C9 witness. -/
def c9Tx : TxRow :=
  ⟨1, 1, "2025-09-02", "VISA DEBIT RETAIL PURCHASE", -3767, some 89818, none,
   txHash 1 "2025-09-02" "VISA DEBIT RETAIL PURCHASE" (-3767)⟩

/-- A concrete store for the C9 witness. -/
def c9DB : DB :=
  ⟨[⟨1, "87-40798", none, some "CIBC Bank Account"⟩], [], [c9Tx], 2, 1, 2⟩

/-- Concrete instantiation of the C9 theorem at the store `c9DB` with no
account filter and no cap: the listing is date-descending sorted and the
uncategorized row `c9Tx` is enriched with NULL category fields. -/
theorem get_transactions_sorted_joined_witness :
    List.Sorted (fun x y : TxView => y.date ≤ x.date)
      (get_transactions c9DB none none)
    ∧ (enrich c9DB c9Tx).category = none
    ∧ (enrich c9DB c9Tx).parent_category = none := by
  rcases get_transactions_sorted_joined c9DB none none with ⟨h1, _, h3⟩
  rcases h3 c9Tx rfl with ⟨h4, h5⟩
  exact ⟨h1, h4, h5⟩

/-! ## A small backtracking regex engine

Only the constructs used by the patterns in src/parser.py: literals,
single-character classes, class repetition with greedy or lazy priority,
concatenation, and capture groups.  `reMatch` implements the standard
leftmost backtracking semantics of Python `re` for these constructs:
greedy repetition tries longer consumptions first, lazy repetition
shorter first, and the first overall success wins. -/

/-- Captured groups: group number paired with the captured characters. -/
abbrev Caps := List (Nat × List Char)

/-- The regex abstract syntax actually used by the program's patterns. -/
inductive RE where
  | lit : List Char → RE
  | cls : (Char → Bool) → RE
  | rep : (Char → Bool) → Nat → Option Nat → Bool → RE
  | seq : RE → RE → RE
  | grp : Nat → RE → RE

/-- Length of the run of characters satisfying `f` at the head. -/
def countLeading (f : Char → Bool) : List Char → Nat
  | [] => 0
  | c :: t => if f c then countLeading f t + 1 else 0

/-- First success of `f` over `l`, in order: backtracking priority. -/
def firstSomeL {α β : Type} (l : List α) (f : α → Option β) : Option β :=
  match l with
  | [] => none
  | a :: t =>
      match f a with
      | some b => some b
      | none => firstSomeL t f

/-- Candidate consumption counts for a class repetition `{lo,hi}` over a
head run of length `m`, in backtracking priority order (greedy: longest
first; lazy: shortest first). -/
def repCandidates (lo : Nat) (hi : Option Nat) (greedy : Bool) (m : Nat) : List Nat :=
  let upper := min m (hi.getD m)
  if lo > upper then []
  else
    let asc := List.range' lo (upper + 1 - lo)
    if greedy then asc.reverse else asc

/-- Continuation-passing backtracking matcher. -/
def reMatch {β : Type} : RE → List Char → (List Char → Caps → Option β) → Caps → Option β
  | .lit p, s, k, caps => if p.isPrefixOf s then k (s.drop p.length) caps else none
  | .cls f, s, k, caps =>
      match s with
      | c :: t => if f c then k t caps else none
      | [] => none
  | .rep f lo hi greedy, s, k, caps =>
      firstSomeL (repCandidates lo hi greedy (countLeading f s))
        (fun n => k (s.drop n) caps)
  | .seq a b, s, k, caps => reMatch a s (fun s2 caps2 => reMatch b s2 k caps2) caps
  | .grp n a, s, k, caps =>
      reMatch a s
        (fun s2 caps2 => k s2 ((n, s.take (s.length - s2.length)) :: caps2)) caps

/-- `re.match` of a pattern ending in a dollar anchor: anchored at the
start and required to consume the whole line (parser lines contain no
newline, so the dollar anchor is end-of-string). -/
def reFullCaps (r : RE) (s : String) : Option Caps :=
  reMatch r s.data (fun rest caps => if rest.isEmpty then some caps else none) []

/-- `re.search` scan: try each start position left to right. -/
def reSearchAux (r : RE) : List Char → Option Caps
  | [] => reMatch r [] (fun _ caps => some caps) []
  | c :: t =>
      match reMatch r (c :: t) (fun _ caps => some caps) [] with
      | some caps => some caps
      | none => reSearchAux r t

/-- `re.search` (unanchored pattern). -/
def reSearch (r : RE) (s : String) : Option Caps := reSearchAux r s.data

/-- `match.group(n)` as a string. -/
def capStr (caps : Caps) (n : Nat) : Option String :=
  (caps.lookup n).map (fun l => ⟨l⟩)

/-- Right-nested concatenation of a pattern list. -/
def reCat : List RE → RE
  | [] => .lit []
  | [r] => r
  | r :: t => .seq r (reCat t)

/-- Regex class `[\d,]`. -/
def isDigitComma (c : Char) : Bool := isDigitC c || c == ','

/-- Regex class `.` (any character except newline). -/
def isDotChar (c : Char) : Bool := !(c == '\n')

/-! ## The statement parser (src/parser.py) -/

/-- The bank-account row pattern of `_parse_bank_account_transactions`:
group 1 `[A-Z][a-z]{2}\s+\d{1,2}` (date), whitespace, group 2 `.+?`
(description, lazy), whitespace, group 3 `[\d,]+\.\d{2}` (amount),
whitespace, group 4 `[\d,]+\.\d{2}` (balance), end of line. -/
def bankRowRE : RE := reCat [
  .grp 1 (reCat [.cls isUpperC, .rep isLowerC 2 (some 2) true,
                 .rep isWs 1 none true, .rep isDigitC 1 (some 2) true]),
  .rep isWs 1 none true,
  .grp 2 (.rep isDotChar 1 none false),
  .rep isWs 1 none true,
  .grp 3 (reCat [.rep isDigitComma 1 none true, .lit ['.'],
                 .rep isDigitC 2 (some 2) true]),
  .rep isWs 1 none true,
  .grp 4 (reCat [.rep isDigitComma 1 none true, .lit ['.'],
                 .rep isDigitC 2 (some 2) true])]

/-- A credit-card date token `[A-Z][a-z]{2}\s+\d{2}`. -/
def ccDateRE : RE :=
  reCat [.cls isUpperC, .rep isLowerC 2 (some 2) true,
         .rep isWs 1 none true, .rep isDigitC 2 (some 2) true]

/-- The credit-card row pattern of `_parse_transaction_page`: two date
groups, lazy description, amount, end of line. -/
def ccRowRE : RE := reCat [
  .grp 1 ccDateRE,
  .rep isWs 1 none true,
  .grp 2 ccDateRE,
  .rep isWs 1 none true,
  .grp 3 (.rep isDotChar 1 none false),
  .rep isWs 1 none true,
  .grp 4 (reCat [.rep isDigitComma 1 none true, .lit ['.'],
                 .rep isDigitC 2 (some 2) true])]

/-- `Account number\s*(\d{2}-\d{5})` of `extract_account_info`. -/
def acctBankRE : RE := reCat [
  .lit "Account number".data,
  .rep isWs 0 none true,
  .grp 1 (reCat [.rep isDigitC 2 (some 2) true, .lit ['-'],
                 .rep isDigitC 5 (some 5) true])]

/-- The masked card number `\d{4}\s+X+\s+X+\s+\d{4}`. -/
def maskedCardRE : RE := reCat [
  .rep isDigitC 4 (some 4) true, .rep isWs 1 none true,
  .rep (fun c => c == 'X') 1 none true, .rep isWs 1 none true,
  .rep (fun c => c == 'X') 1 none true, .rep isWs 1 none true,
  .rep isDigitC 4 (some 4) true]

/-- `Account number\s*(\d{4}\s+X+\s+X+\s+\d{4})`. -/
def acctCardRE1 : RE := reCat [
  .lit "Account number".data, .rep isWs 0 none true, .grp 1 maskedCardRE]

/-- The fallback `(\d{4}\s+X+\s+X+\s+\d{4})`. -/
def acctCardRE2 : RE := .grp 1 maskedCardRE

/-- `float(text.replace(',', ''))` on a `[\d,]+\.\d{2}` match, exactly,
in integer cents. -/
def moneyCents (s : String) : Int :=
  let t := s.data.filter (fun c => !(c == ','))
  let ip := t.takeWhile (fun c => !(c == '.'))
  let fp := (t.dropWhile (fun c => !(c == '.'))).drop 1
  ((digitsVal ip * 100 + digitsVal fp : Nat) : Int)

/-- Python `text.split('\n')` (keeps empty pieces). -/
def splitOnChar (sep : Char) : List Char → List (List Char)
  | [] => [[]]
  | c :: t =>
      match splitOnChar sep t with
      | [] => [[]]
      | h :: r => if c == sep then [] :: h :: r else (c :: h) :: r

/-- The lines of a page text, as in `text.split('\n')`. -/
def splitLines (s : String) : List String := (splitOnChar '\n' s.data).map (fun l => ⟨l⟩)

/-- `CIBCParser._detect_statement_type`, applied to the extracted text
of the first page. -/
def _detect_statement_type (first_page : String) : String :=
  if strContains first_page "Account Statement" &&
     strContains first_page "Branch transit number" then "bank_account"
  else if strContains first_page "Visa" || strContains first_page "Credit Card" then
    "credit_card"
  else "unknown"

/-- Python `s.replace(' ', '')`. -/
def replaceSpace (s : String) : String := ⟨s.data.filter (fun c => !(c == ' '))⟩

/-- `CIBCParser.extract_account_info`, with the detected statement type
and the first page's text passed explicitly; never raises (total). -/
def extract_account_info (statement_type : String) (first_page : String) : AccountInfo :=
  if statement_type == "bank_account" then
    let account_number :=
      match reSearch acctBankRE first_page with
      | some caps => (capStr caps 1).getD "UNKNOWN"
      | none => "UNKNOWN"
    ⟨account_number, none, "CIBC Bank Account"⟩
  else
    let m :=
      match reSearch acctCardRE1 first_page with
      | some caps => some caps
      | none => reSearch acctCardRE2 first_page
    let account_number :=
      match m with
      | some caps => replaceSpace ((capStr caps 1).getD "UNKNOWN")
      | none => "UNKNOWN"
    let account_type :=
      if strContains first_page "Dividend" then "CIBC Dividend Visa"
      else if strContains first_page "Aventura" then "CIBC Aventura"
      else "CIBC Credit Card"
    ⟨account_number, none, account_type⟩

/-! ## Date parsing (`CIBCParser._parse_date`)

`datetime.strptime(f"{date_str} {year}", "%b %d %Y")` compiles the
format to a regex: the month alternation (case-insensitive), `\s+` for
the format's spaces, CPython's day pattern
`3[01]|[12]\d|0[1-9]|[1-9]| [1-9]`, four digits for `%Y`, all anchored
to consume the whole string; then the `datetime` constructor validates
the day against the month length (and rejects year 0), raising
ValueError on failure. -/

/-- Abbreviated month names for `%b` (C locale), with month numbers. -/
def monthAbbrevs : List (Nat × String) :=
  [(1, "Jan"), (2, "Feb"), (3, "Mar"), (4, "Apr"), (5, "May"), (6, "Jun"),
   (7, "Jul"), (8, "Aug"), (9, "Sep"), (10, "Oct"), (11, "Nov"), (12, "Dec")]

/-- `%b`: a three-character abbreviated month name, case-insensitive. -/
def matchMonth (s : List Char) : Option (Nat × List Char) :=
  (monthAbbrevs.find? (fun p => (s.take 3).map lowerC == p.2.data.map lowerC)).map
    (fun p => (p.1, s.drop 3))

/-- The `%d` alternation `3[01]|[12]\d|0[1-9]|[1-9]| [1-9]`, producing
the viable (day value, remainder) pairs in alternation priority order. -/
def dayCandidates (s : List Char) : List (Nat × List Char) :=
  (match s with
   | '3' :: c :: t => if c == '0' || c == '1' then [(30 + digitVal c, t)] else []
   | _ => []) ++
  (match s with
   | c :: d :: t =>
       if (c == '1' || c == '2') && isDigitC d
       then [(digitVal c * 10 + digitVal d, t)] else []
   | _ => []) ++
  (match s with
   | '0' :: c :: t => if 49 ≤ c.toNat && c.toNat ≤ 57 then [(digitVal c, t)] else []
   | _ => []) ++
  (match s with
   | c :: t => if 49 ≤ c.toNat && c.toNat ≤ 57 then [(digitVal c, t)] else []
   | _ => []) ++
  (match s with
   | ' ' :: c :: t => if 49 ≤ c.toNat && c.toNat ≤ 57 then [(digitVal c, t)] else []
   | _ => [])

/-- `\s+` with backtracking: the remainders after consuming at least one
whitespace character, longest (greedy) first. -/
def wsSplits (s : List Char) : List (List Char) :=
  (repCandidates 1 none true (countLeading isWs s)).map (fun n => s.drop n)

/-- `%Y` at the end of the format: exactly four digits then the end. -/
def yearEnd (s : List Char) : Option Nat :=
  match s with
  | [a, b, c, d] =>
      if isDigitC a && isDigitC b && isDigitC c && isDigitC d
      then some (digitsVal [a, b, c, d]) else none
  | _ => none

/-- The regex phase of `strptime(s, "%b %d %Y")`: month, day, year. -/
def strptimeMatch (s : List Char) : Option (Nat × Nat × Nat) :=
  match matchMonth s with
  | none => none
  | some (m, r1) =>
      firstSomeL (wsSplits r1) (fun r2 =>
        firstSomeL (dayCandidates r2) (fun dc =>
          firstSomeL (wsSplits dc.2) (fun r4 =>
            (yearEnd r4).map (fun y => (m, dc.1, y)))))

/-- Gregorian leap year, as in Python's datetime. -/
def isLeap (y : Nat) : Bool := y % 4 == 0 && (y % 100 != 0 || y % 400 == 0)

/-- Days in a month (the month index is 1-12 by construction). -/
def daysInMonth (m y : Nat) : Nat :=
  match m with
  | 1 => 31 | 2 => if isLeap y then 29 else 28 | 3 => 31 | 4 => 30 | 5 => 31
  | 6 => 30 | 7 => 31 | 8 => 31 | 9 => 30 | 10 => 31 | 11 => 30 | _ => 31

/-- `strftime("%Y-%m-%d")`. -/
def fmtDate (y m d : Nat) : String := natStr y ++ "-" ++ pad2 m ++ "-" ++ pad2 d

/-- `datetime.strptime(s, "%b %d %Y")` followed by the datetime
constructor's validity check; `none` models the raised ValueError. -/
def strptimeBDY (s : String) : Option (Nat × Nat × Nat) :=
  match strptimeMatch s.data with
  | none => none
  | some (m, d, y) =>
      if 1 ≤ y && 1 ≤ d && d ≤ daysInMonth m y then some (m, d, y) else none

/-- `CIBCParser._parse_date`: parse `f"{date_str} {year}"` with format
`"%b %d %Y"` and render `"%Y-%m-%d"`; on ValueError return the original
string unchanged. -/
def _parse_date (date_str : String) (year : Nat) : String :=
  match strptimeBDY (date_str ++ " " ++ natStr year) with
  | some (m, d, y) => fmtDate y m d
  | none => date_str

/-! ## Transaction extraction (src/parser.py) -/

/-- The bank-account row matcher: `re.match(bankRowRE, line)` plus the
group extraction of `_parse_bank_account_transactions`, as (date text,
stripped description, amount cents, balance cents). -/
def matchBankRow (line : String) : Option (String × String × Int × Int) :=
  match reFullCaps bankRowRE line with
  | none => none
  | some caps =>
      match capStr caps 1, capStr caps 2, capStr caps 3, capStr caps 4 with
      | some g1, some g2, some g3, some g4 =>
          some (g1, pyStrip g2, moneyCents g3, moneyCents g4)
      | _, _, _, _ => none

/-- One line of the loop body in `_parse_bank_account_transactions`:
returns the new in-section state and the transaction the line yields, if
any.  Note: once inside the section, nothing in this loop ever resets
the state to outside within a page. -/
def bankLineStep (year : Nat) (in_transaction_section : Bool) (line : String) :
    Bool × Option ParsedTx :=
  if strContains line "Date Description Withdrawals" ||
     strContains line "Transaction details" then (true, none)
  else if !in_transaction_section then (in_transaction_section, none)
  else if strContains line "Opening balance" then (in_transaction_section, none)
  else
    match matchBankRow line with
    | some g =>
        (in_transaction_section,
         some ⟨_parse_date g.1 year, g.2.1, -g.2.2.1, some g.2.2.2⟩)
    | none => (in_transaction_section, none)

/-- The per-page loop of `_parse_bank_account_transactions` (the state
starts outside at the top of each page; found rows are appended to the
running transaction list). -/
def bankPageStep (year : Nat) (acc : List ParsedTx) (page : String) : List ParsedTx :=
  ((splitLines page).foldl
    (fun st line =>
      let r := bankLineStep year st.1 line
      (r.1, match r.2 with | some tx => st.2 ++ [tx] | none => st.2))
    (false, acc)).2

/-- `CIBCParser._parse_bank_account_transactions`, with the wall-clock
year (`datetime.now().year`) passed explicitly. -/
def _parse_bank_account_transactions (year : Nat) (pages : List String) :
    List ParsedTx :=
  pages.foldl (bankPageStep year) []

/-- The fixed trailing category labels stripped from credit-card
descriptions by `_parse_transaction_page`. -/
def ccLabels : List String :=
  ["Health and Education", "Restaurants", "Retail and Grocery",
   "Professional and Financial Services", "Gas and Groceries", "Gas Stations"]

/-- After the first mandatory whitespace of `\s+(<labels>)$`: either the
label alternation reaching the end of the string, or one more whitespace
character and recursion (the backtracking of a greedy `\s+` followed by
letter-initial alternatives). -/
def restMatch : List Char → Bool
  | [] => false
  | c :: t => ccLabels.any (fun l => l.data == c :: t) || (isWs c && restMatch t)

/-- Does `\s+(<labels>)$` match starting exactly at this suffix? -/
def tailMatch : List Char → Bool
  | [] => false
  | c :: t => isWs c && restMatch t

/-- `re.sub(r'\s+(<labels>)$', '', s)`: delete from the leftmost
position where the pattern matches (any match necessarily reaches the
end of the string). -/
def subScan : List Char → List Char
  | [] => []
  | c :: t => if tailMatch (c :: t) then [] else c :: subScan t

/-- The description cleanup of `_parse_transaction_page`:
`re.sub(r'\s+(<labels>)$', '', description_raw).strip()`. -/
def cleanDescription (s : String) : String := pyStrip ⟨subScan s.data⟩

/-- The credit-card row matcher and field extraction of
`_parse_transaction_page` (the posting date, group 2, is discarded; no
balance is produced). -/
def matchCCRow (year : Nat) (line : String) : Option ParsedTx :=
  match reFullCaps ccRowRE line with
  | none => none
  | some caps =>
      match capStr caps 1, capStr caps 3, capStr caps 4 with
      | some g1, some g3, some g4 =>
          some ⟨_parse_date g1 year, cleanDescription (pyStrip g3), moneyCents g4, none⟩
      | _, _, _ => none

/-- One line of the loop body in `_parse_transaction_page`. -/
def ccLineStep (year : Nat) (in_transaction_section : Bool) (line : String) :
    Bool × Option ParsedTx :=
  if strContains line "Trans Post" || strContains line "date date Description" ||
     strContains line "Spend Categories" then (true, none)
  else if strContains line "Card number" then (in_transaction_section, none)
  else if (strContains line "Page" && strContains line "of") ||
          strContains line "Information about your" then (false, none)
  else if !in_transaction_section then (in_transaction_section, none)
  else if strContains line "PAYMENT THANK YOU" ||
          strContains line "Total payments" || pyStrip line == "Ã" then
    (in_transaction_section, none)
  else
    match matchCCRow year line with
    | some tx => (in_transaction_section, some tx)
    | none => (in_transaction_section, none)

/-- `CIBCParser._parse_transaction_page`. -/
def _parse_transaction_page (year : Nat) (text : String) : List ParsedTx :=
  ((splitLines text).foldl
    (fun st line =>
      let r := ccLineStep year st.1 line
      (r.1, match r.2 with | some tx => st.2 ++ [tx] | none => st.2))
    (false, [])).2

/-- `CIBCParser._parse_credit_card_transactions`: only pages containing
a transaction-section phrase are scanned. -/
def _parse_credit_card_transactions (year : Nat) (pages : List String) :
    List ParsedTx :=
  pages.foldl
    (fun transactions page =>
      if strContains page "Your new charges and credits" ||
         strContains page "Transactions"
      then transactions ++ _parse_transaction_page year page
      else transactions)
    []

/-- `CIBCParser.parse_transactions`: dispatch on the detected statement
type (the unknown type goes down the credit-card path). -/
def parse_transactions (statement_type : String) (year : Nat) (pages : List String) :
    List ParsedTx :=
  if statement_type == "bank_account" then _parse_bank_account_transactions year pages
  else _parse_credit_card_transactions year pages

/-- C8: whenever strptime fails on `f"{date_str} {year}"` (the date
string cannot be parsed as abbreviated-month + day with the supplied
year), `_parse_date` returns the original unparsed string instead of
raising, so a malformed date is stored as-is. -/
theorem parse_date_malformed_returns_input (date_str : String) (year : Nat)
    (h : strptimeBDY (date_str ++ " " ++ natStr year) = none) :
    _parse_date date_str year = date_str := by
  simp [_parse_date, h]

/-- Concrete instantiation of the C8 theorem: "Foo 12" (not a month) and
"Sep 31" (day out of range for September) both fail strptime and are
returned unchanged. -/
theorem parse_date_malformed_returns_input_witness :
    strptimeBDY ("Foo 12" ++ " " ++ natStr 2025) = none
    ∧ _parse_date "Foo 12" 2025 = "Foo 12"
    ∧ _parse_date "Sep 31" 2025 = "Sep 31" := by
  refine ⟨by decide, parse_date_malformed_returns_input "Foo 12" 2025 (by decide),
    parse_date_malformed_returns_input "Sep 31" 2025 (by decide)⟩

/-- A one-page document lacking every layout marker phrase but
containing a masked card number and a credit-card transaction section. -/
def c3Page : String :=
  "Account number 1234 XXXX XXXX 5678\nTransactions\nTrans Post\nSep 06 Sep 08 STORE A 26.88"

/-- C3 (counterexample): this document contains none of the layout
marker phrases ("Account Statement", "Branch transit number", "Visa",
"Credit Card"), so it is classified "unknown" — but the pipeline then
takes the credit-card path, extracts the masked account number
"1234XXXXXXXX5678" (not "UNKNOWN"), and produces a non-empty transaction
list. -/
theorem unknown_layout_claim_fails :
    strContains c3Page "Account Statement" = false
    ∧ strContains c3Page "Branch transit number" = false
    ∧ strContains c3Page "Visa" = false
    ∧ strContains c3Page "Credit Card" = false
    ∧ _detect_statement_type c3Page = "unknown"
    ∧ (extract_account_info (_detect_statement_type c3Page) c3Page).account_number =
        "1234XXXXXXXX5678"
    ∧ parse_transactions (_detect_statement_type c3Page) 2025 [c3Page] =
        [⟨"2025-09-06", "STORE A", 2688, none⟩] := by
  decide

theorem ccPages_no_trigger (year : Nat) (pages : List String) (acc : List ParsedTx)
    (h : ∀ p ∈ pages, strContains p "Your new charges and credits" = false ∧
          strContains p "Transactions" = false) :
    pages.foldl
      (fun transactions page =>
        if strContains page "Your new charges and credits" ||
           strContains page "Transactions"
        then transactions ++ _parse_transaction_page year page
        else transactions) acc = acc := by
  induction pages generalizing acc with
  | nil => rfl
  | cons p rest ih =>
    rcases h p (by simp) with ⟨ha, hb⟩
    simp only [List.foldl_cons, ha, hb, Bool.or_self, Bool.false_eq_true, if_false]
    exact ih acc (fun q hq => h q (List.mem_cons_of_mem _ hq))

/-- C3 (amended): a document whose first page contains none of the
layout marker phrases is classified "unknown", with no exception raised
(every function here is total); if moreover the first page contains no
masked card-number pattern, the extracted account number falls back to
"UNKNOWN"; and if moreover no page contains a credit-card
transaction-section phrase, the transaction list is empty. -/
theorem unknown_layout_fallback (first_page : String) (pages : List String) (year : Nat)
    (h1 : strContains first_page "Account Statement" = false)
    (_h2 : strContains first_page "Branch transit number" = false)
    (h3 : strContains first_page "Visa" = false)
    (h4 : strContains first_page "Credit Card" = false) :
    _detect_statement_type first_page = "unknown"
    ∧ (reSearch acctCardRE1 first_page = none →
        reSearch acctCardRE2 first_page = none →
        (extract_account_info (_detect_statement_type first_page)
          first_page).account_number = "UNKNOWN")
    ∧ ((∀ p ∈ pages, strContains p "Your new charges and credits" = false ∧
          strContains p "Transactions" = false) →
        parse_transactions (_detect_statement_type first_page) year pages = []) := by
  have hdet : _detect_statement_type first_page = "unknown" := by
    simp [_detect_statement_type, h1, h3, h4]
  refine ⟨hdet, ?_, ?_⟩
  · intro hc1 hc2
    rw [hdet]
    simp [extract_account_info, hc1, hc2]
  · intro hp
    rw [hdet]
    simp only [parse_transactions, _parse_credit_card_transactions]
    rw [if_neg (by decide)]
    exact ccPages_no_trigger year pages [] hp

/-- Concrete instantiation of the C3 amended theorem at a document with
a single page "hello". -/
theorem unknown_layout_fallback_witness :
    _detect_statement_type "hello" = "unknown"
    ∧ (extract_account_info (_detect_statement_type "hello") "hello").account_number =
        "UNKNOWN"
    ∧ parse_transactions (_detect_statement_type "hello") 2025 ["hello"] = [] := by
  rcases unknown_layout_fallback "hello" ["hello"] 2025 (by decide) (by decide)
    (by decide) (by decide) with ⟨w1, w2, w3⟩
  exact ⟨w1, w2 (by decide) (by decide), w3 (by decide)⟩

/-- C6 (counterexample): in the bank-account layout the state machine
never transitions back to outside: from inside the section, the
page-number footer line "Page 1 of 2" leaves the state inside (the
claim requires outside), and a transaction row appearing after that
footer line is still extracted. -/
theorem bank_state_machine_never_exits :
    bankLineStep 2025 true "Page 1 of 2" = (true, none)
    ∧ _parse_bank_account_transactions 2025
        ["Date Description Withdrawals\nPage 1 of 2\nSep 2 VISA DEBIT RETAIL PURCHASE 37.67 898.18"] =
      [⟨"2025-09-02", "VISA DEBIT RETAIL PURCHASE", -3767, some 89818⟩] := by
  decide

/-- C6 (amended): per-page, both extractors enter the
inside-transaction-section state only on their header-marker lines, and
lines seen while outside produce no record and no error; the
credit-card extractor transitions back to outside on footer lines
(page-number or next-section lines, when the line is not also a header
or card-number line); the bank-account extractor, however, never
transitions back to outside within a page (see the counterexample). -/
theorem state_machine_header_footer :
    (∀ (year : Nat) (line : String),
        strContains line "Date Description Withdrawals" = false →
        strContains line "Transaction details" = false →
        bankLineStep year false line = (false, none))
    ∧ (∀ (year : Nat) (line : String) (s : Bool),
        strContains line "Date Description Withdrawals" = true ∨
        strContains line "Transaction details" = true →
        bankLineStep year s line = (true, none))
    ∧ (∀ (year : Nat) (line : String) (s : Bool),
        strContains line "Trans Post" = false →
        strContains line "date date Description" = false →
        strContains line "Spend Categories" = false →
        strContains line "Card number" = false →
        (strContains line "Page" = true ∧ strContains line "of" = true) ∨
          strContains line "Information about your" = true →
        ccLineStep year s line = (false, none))
    ∧ (∀ (year : Nat) (line : String),
        strContains line "Trans Post" = false →
        strContains line "date date Description" = false →
        strContains line "Spend Categories" = false →
        ccLineStep year false line = (false, none)) := by
  refine ⟨?_, ?_, ?_, ?_⟩
  · intro year line ha hb
    simp [bankLineStep, ha, hb]
  · intro year line s h
    rcases h with h | h <;> simp [bankLineStep, h]
  · intro year line s h1 h2 h3 h4 h5
    rcases h5 with ⟨ha, hb⟩ | hc
    · simp [ccLineStep, h1, h2, h3, h4, ha, hb]
    · simp [ccLineStep, h1, h2, h3, h4, hc]
  · intro year line h1 h2 h3
    simp only [ccLineStep, h1, h2, h3, Bool.or_self, Bool.false_eq_true, if_false]
    split_ifs <;> simp_all

/-- Concrete instantiation of the C6 amended theorem. -/
theorem state_machine_header_footer_witness :
    bankLineStep 2025 false "some inert line" = (false, none)
    ∧ bankLineStep 2025 false "Transaction details" = (true, none)
    ∧ ccLineStep 2025 true "Page 3 of 7" = (false, none)
    ∧ ccLineStep 2025 false "some inert line" = (false, none) := by
  obtain ⟨p1, p2, p3, p4⟩ := state_machine_header_footer
  exact ⟨p1 2025 "some inert line" (by decide) (by decide),
    p2 2025 "Transaction details" false (Or.inr (by decide)),
    p3 2025 "Page 3 of 7" true (by decide) (by decide) (by decide) (by decide)
      (Or.inl (by decide)),
    p4 2025 "some inert line" (by decide) (by decide) (by decide)⟩

/-! ## The trailing-label stripping (C7)

Key structural facts: every label starts with a non-whitespace
character, and no label contains (whitespace ++ another label) as a
proper suffix; hence the leftmost match of `\s+(<labels>)$` found by
`subScan` is exactly the trailing (whitespace ++ label) block. -/

theorem ccLabels_head_not_ws :
    (ccLabels.all (fun l =>
      match l.data with
      | [] => false
      | c :: _ => !(isWs c))) = true := by decide

theorem ccLabels_no_ws_label_suffix :
    (ccLabels.all (fun m =>
      (List.range m.data.length).all (fun i =>
        i == 0 ||
        (match m.data.drop i with
         | [] => true
         | c :: t => !(isWs c) ||
             !(ccLabels.any (fun l2 => l2.data == (c :: t).dropWhile isWs)))))) = true := by
  decide

theorem label_ne_of_head_ws (lb : String) (hlb : lb ∈ ccLabels) (c : Char)
    (t : List Char) (hc : isWs c = true) : lb.data ≠ c :: t := by
  intro he
  have H := List.all_eq_true.mp ccLabels_head_not_ws lb hlb
  rw [he] at H
  have H2 : (!(isWs c)) = true := H
  rw [hc] at H2
  cases H2

theorem label_dropWhile_self (l : String) (hl : l ∈ ccLabels) :
    l.data.dropWhile isWs = l.data := by
  rcases hd : l.data with _ | ⟨c, t⟩
  · rfl
  · have H := List.all_eq_true.mp ccLabels_head_not_ws l hl
    rw [hd] at H
    have H2 : (!(isWs c)) = true := H
    have hfalse : isWs c = false := by simpa using H2
    rw [List.dropWhile_cons, if_neg (by simp [hfalse])]

theorem restMatch_eq (z : List Char) :
    restMatch z = ccLabels.any (fun l => l.data == z.dropWhile isWs) := by
  induction z with
  | nil => decide
  | cons c t ih =>
    have h1 : restMatch (c :: t) =
        (ccLabels.any (fun l => l.data == c :: t) || (isWs c && restMatch t)) := rfl
    by_cases hc : isWs c = true
    · have hne : ccLabels.any (fun l => l.data == c :: t) = false := by
        refine List.any_eq_false.mpr (fun l hl hbeq => ?_)
        exact label_ne_of_head_ws l hl c t hc (by simpa using hbeq)
      rw [h1, hne, hc, Bool.false_or, Bool.true_and, ih,
        List.dropWhile_cons, if_pos hc]
    · have hcf : isWs c = false := by simpa using hc
      rw [h1, hcf, Bool.false_and, Bool.or_false, List.dropWhile_cons, if_neg hc]

theorem dropTrailWs_nil_iff (l : List Char) :
    dropTrailWs l = [] ↔ ∀ c ∈ l, isWs c = true := by
  induction l with
  | nil => simp [dropTrailWs]
  | cons c t ih =>
    have hunfold : dropTrailWs (c :: t) =
        (match dropTrailWs t with
         | [] => if isWs c then [] else [c]
         | r => c :: r) := rfl
    constructor
    · intro h
      rcases ht : dropTrailWs t with _ | ⟨r, rs⟩
      · rw [hunfold, ht] at h
        by_cases hc : isWs c = true
        · intro x hx
          rcases List.mem_cons.mp hx with rfl | hx2
          · exact hc
          · exact ih.mp ht x hx2
        · rw [if_neg hc] at h
          cases h
      · rw [hunfold, ht] at h
        cases h
    · intro hall
      have ht : dropTrailWs t = [] :=
        ih.mpr (fun x hx => hall x (List.mem_cons_of_mem _ hx))
      rw [hunfold, ht, if_pos (hall c (by simp))]

theorem dropWhile_append_all (p : Char → Bool) (w r : List Char)
    (h : ∀ c ∈ w, p c = true) : (w ++ r).dropWhile p = r.dropWhile p := by
  induction w with
  | nil => rfl
  | cons a t ih =>
    rw [List.cons_append, List.dropWhile_cons, if_pos (h a (by simp))]
    exact ih (fun c hc => h c (List.mem_cons_of_mem _ hc))

theorem dropWhile_append_ne (p : Char → Bool) (l r : List Char)
    (h : l.dropWhile p ≠ []) : (l ++ r).dropWhile p = l.dropWhile p ++ r := by
  induction l with
  | nil => exact absurd rfl h
  | cons a t ih =>
    by_cases ha : p a = true
    · have h2 : t.dropWhile p ≠ [] := by rwa [List.dropWhile_cons, if_pos ha] at h
      rw [List.cons_append, List.dropWhile_cons, if_pos ha,
        List.dropWhile_cons, if_pos ha]
      exact ih h2
    · rw [List.cons_append, List.dropWhile_cons, if_neg ha,
        List.dropWhile_cons, if_neg ha]
      rfl

theorem ccLabels_no_split (lb l : String) (hlb : lb ∈ ccLabels) (hl : l ∈ ccLabels)
    (y : List Char) (w0 : Char) (wt : List Char)
    (hy : y ≠ []) (hw0 : isWs w0 = true) (hwt : ∀ c ∈ wt, isWs c = true)
    (he : lb.data = y ++ ((w0 :: wt) ++ l.data)) : False := by
  have hdrop : lb.data.drop y.length = w0 :: (wt ++ l.data) := by
    rw [he]
    simp
  have hlen : y.length < lb.data.length := by
    rw [he]
    simp
  have H := List.all_eq_true.mp ccLabels_no_ws_label_suffix lb hlb
  have H2 := List.all_eq_true.mp H y.length (List.mem_range.mpr hlen)
  have h0 : (y.length == 0) = false := by
    cases y with
    | nil => exact absurd rfl hy
    | cons _ _ => simp
  rw [hdrop, h0, Bool.false_or] at H2
  have H3 : (!(isWs w0) ||
      !(ccLabels.any (fun l2 =>
          l2.data == (w0 :: (wt ++ l.data)).dropWhile isWs))) = true := H2
  have hdw : (w0 :: (wt ++ l.data)).dropWhile isWs = l.data := by
    rw [List.dropWhile_cons, if_pos hw0, dropWhile_append_all isWs wt l.data hwt,
      label_dropWhile_self l hl]
  rw [hdw, hw0] at H3
  have hex : ccLabels.any (fun l2 => l2.data == l.data) = true :=
    List.any_eq_true.mpr ⟨l, hl, by simp⟩
  rw [hex] at H3
  cases H3

theorem dropTrailWs_unfold (c : Char) (t : List Char) :
    dropTrailWs (c :: t) =
      (match dropTrailWs t with
       | [] => if isWs c then [] else [c]
       | r => c :: r) := rfl

theorem subScan_strip_label (l : String) (hl : l ∈ ccLabels)
    (w : List Char) (hw1 : w ≠ []) (hw2 : ∀ c ∈ w, isWs c = true) :
    ∀ d : List Char, subScan (d ++ (w ++ l.data)) = dropTrailWs d := by
  intro d
  induction d with
  | nil =>
    rcases w with _ | ⟨w0, wt⟩
    · exact absurd rfl hw1
    · have hw0 : isWs w0 = true := hw2 w0 (by simp)
      have hwt : ∀ c ∈ wt, isWs c = true :=
        fun c hc => hw2 c (List.mem_cons_of_mem _ hc)
      have hrm : restMatch (wt ++ l.data) = true := by
        rw [restMatch_eq, dropWhile_append_all isWs wt l.data hwt,
          label_dropWhile_self l hl]
        exact List.any_eq_true.mpr ⟨l, hl, by simp⟩
      have htm : tailMatch (w0 :: (wt ++ l.data)) = true := by
        have h1 : tailMatch (w0 :: (wt ++ l.data)) =
            (isWs w0 && restMatch (wt ++ l.data)) := rfl
        rw [h1, hw0, hrm]
        rfl
      show subScan (w0 :: (wt ++ l.data)) = []
      have h2 : subScan (w0 :: (wt ++ l.data)) =
          (if tailMatch (w0 :: (wt ++ l.data)) then []
           else w0 :: subScan (wt ++ l.data)) := rfl
      rw [h2, if_pos htm]
  | cons c d' ih =>
    have hcons : subScan (c :: (d' ++ (w ++ l.data))) =
        (if tailMatch (c :: (d' ++ (w ++ l.data))) then []
         else c :: subScan (d' ++ (w ++ l.data))) := rfl
    have htmEq : tailMatch (c :: (d' ++ (w ++ l.data))) =
        (isWs c && restMatch (d' ++ (w ++ l.data))) := rfl
    by_cases htm : tailMatch (c :: (d' ++ (w ++ l.data))) = true
    · have hc : isWs c = true := ((Bool.and_eq_true _ _).mp (htmEq ▸ htm)).1
      have hrm : restMatch (d' ++ (w ++ l.data)) = true :=
        ((Bool.and_eq_true _ _).mp (htmEq ▸ htm)).2
      rw [restMatch_eq] at hrm
      rcases List.any_eq_true.mp hrm with ⟨lb, hlb, hbeq⟩
      have hbeq' : lb.data = (d' ++ (w ++ l.data)).dropWhile isWs := by
        simpa using hbeq
      by_cases hd' : d'.dropWhile isWs = []
      · have hall : ∀ x ∈ d', isWs x = true := List.dropWhile_eq_nil_iff.mp hd'
        have hnil : dropTrailWs (c :: d') = [] :=
          (dropTrailWs_nil_iff (c :: d')).mpr (fun x hx => by
            rcases List.mem_cons.mp hx with rfl | hx2
            · exact hc
            · exact hall x hx2)
        show subScan (c :: (d' ++ (w ++ l.data))) = dropTrailWs (c :: d')
        rw [hcons, if_pos htm, hnil]
      · exfalso
        rcases w with _ | ⟨w0, wt⟩
        · exact absurd rfl hw1
        have hw0 : isWs w0 = true := hw2 w0 (by simp)
        have hwt : ∀ x ∈ wt, isWs x = true :=
          fun x hx => hw2 x (List.mem_cons_of_mem _ hx)
        have hsplit : (d' ++ ((w0 :: wt) ++ l.data)).dropWhile isWs =
            d'.dropWhile isWs ++ ((w0 :: wt) ++ l.data) :=
          dropWhile_append_ne isWs d' ((w0 :: wt) ++ l.data) hd'
        rw [hsplit] at hbeq'
        exact ccLabels_no_split lb l hlb hl (d'.dropWhile isWs) w0 wt hd' hw0
          hwt hbeq'
    · show subScan (c :: (d' ++ (w ++ l.data))) = dropTrailWs (c :: d')
      have htmf : tailMatch (c :: (d' ++ (w ++ l.data))) = false := by
        cases hb : tailMatch (c :: (d' ++ (w ++ l.data))) with
        | false => rfl
        | true => exact absurd hb htm
      rw [hcons, htmf, if_neg (by simp), ih]
      rcases hdt : dropTrailWs d' with _ | ⟨r, rs⟩
      · by_cases hc : isWs c = true
        · exfalso
          apply htm
          have hall : ∀ x ∈ d', isWs x = true := (dropTrailWs_nil_iff d').mp hdt
          have hrm : restMatch (d' ++ (w ++ l.data)) = true := by
            rw [restMatch_eq, dropWhile_append_all isWs d' (w ++ l.data) hall,
              dropWhile_append_all isWs w l.data hw2, label_dropWhile_self l hl]
            exact List.any_eq_true.mpr ⟨l, hl, by simp⟩
          rw [htmEq, hc, hrm]
          rfl
        · rw [dropTrailWs_unfold, hdt, if_neg hc]
      · rw [dropTrailWs_unfold, hdt]

theorem subScan_id (z : List Char) (h : ∀ i, tailMatch (z.drop i) = false) :
    subScan z = z := by
  induction z with
  | nil => rfl
  | cons c t ih =>
    have h0 : tailMatch (c :: t) = false := h 0
    have hcons : subScan (c :: t) =
        (if tailMatch (c :: t) then [] else c :: subScan t) := rfl
    rw [hcons, h0, if_neg (by simp), ih (fun i => h (i + 1))]

theorem dropTrailWs_idem (l : List Char) :
    dropTrailWs (dropTrailWs l) = dropTrailWs l := by
  induction l with
  | nil => rfl
  | cons c t ih =>
    rcases ht : dropTrailWs t with _ | ⟨r, rs⟩
    · rw [dropTrailWs_unfold, ht]
      by_cases hc : isWs c = true
      · rw [if_pos hc]
        rfl
      · rw [if_neg hc]
        show dropTrailWs [c] = [c]
        rw [dropTrailWs_unfold]
        show (if isWs c then [] else [c]) = [c]
        rw [if_neg hc]
    · rw [dropTrailWs_unfold, ht]
      have h2 := ih
      rw [ht] at h2
      rw [dropTrailWs_unfold, h2]

theorem dropWhile_dropTrailWs (l : List Char) :
    (dropTrailWs l).dropWhile isWs = dropTrailWs (l.dropWhile isWs) := by
  induction l with
  | nil => rfl
  | cons c t ih =>
    by_cases hc : isWs c = true
    · rcases ht : dropTrailWs t with _ | ⟨r, rs⟩
      · rw [dropTrailWs_unfold, ht, if_pos hc]
        have hall := (dropTrailWs_nil_iff t).mp ht
        have hdw : t.dropWhile isWs = [] := List.dropWhile_eq_nil_iff.mpr hall
        rw [List.dropWhile_cons, if_pos hc, hdw]
        rfl
      · rw [dropTrailWs_unfold, ht]
        rw [List.dropWhile_cons, if_pos hc, ← ht, ih,
          List.dropWhile_cons, if_pos hc]
    · rcases ht : dropTrailWs t with _ | ⟨r, rs⟩
      · rw [dropTrailWs_unfold, ht, if_neg hc]
        rw [List.dropWhile_cons, if_neg hc, List.dropWhile_cons, if_neg hc,
          dropTrailWs_unfold, ht, if_neg hc]
      · rw [dropTrailWs_unfold, ht]
        rw [List.dropWhile_cons, if_neg hc, List.dropWhile_cons, if_neg hc,
          dropTrailWs_unfold, ht]

theorem pyStrip_dropTrailWs (x : List Char) :
    pyStrip ⟨dropTrailWs x⟩ = pyStrip ⟨x⟩ := by
  show (⟨dropTrailWs ((dropTrailWs x).dropWhile isWs)⟩ : String) =
    ⟨dropTrailWs (x.dropWhile isWs)⟩
  rw [dropWhile_dropTrailWs, dropTrailWs_idem]

/-- C7: a credit-card description of the form `prefix ++ whitespace ++
label`, with `label` one of the known fixed trailing category labels, is
stored with that trailing whitespace-plus-label block stripped (the
stripped prefix, up to the final strip() the code always applies); a
description with no such trailing label is stored unmodified (again up
to the final strip()). -/
theorem cc_trailing_label_stripping :
    (∀ (d ws lb : String), ws.data ≠ [] → (∀ c ∈ ws.data, isWs c = true) →
      lb ∈ ccLabels →
      cleanDescription (d ++ ws ++ lb) = pyStrip d)
    ∧ (∀ s : String,
      (¬ ∃ (d ws lb : String), ws.data ≠ [] ∧ (∀ c ∈ ws.data, isWs c = true) ∧
        lb ∈ ccLabels ∧ s = d ++ ws ++ lb) →
      cleanDescription s = pyStrip s) := by
  constructor
  · intro d ws lb hw1 hw2 hlb
    show pyStrip ⟨subScan (d ++ ws ++ lb).data⟩ = pyStrip d
    have hdata : (d ++ ws ++ lb).data = d.data ++ (ws.data ++ lb.data) := by
      rw [String.data_append, String.data_append, List.append_assoc]
    rw [hdata, subScan_strip_label lb hlb ws.data hw1 hw2 d.data]
    exact pyStrip_dropTrailWs d.data
  · intro s hnot
    show pyStrip ⟨subScan s.data⟩ = pyStrip s
    have hall : ∀ i, tailMatch (s.data.drop i) = false := by
      intro i
      cases hb : tailMatch (s.data.drop i) with
      | false => rfl
      | true =>
        exfalso
        apply hnot
        rcases hdi : s.data.drop i with _ | ⟨c, t⟩
        · rw [hdi] at hb
          cases hb
        · rw [hdi] at hb
          have hb' : (isWs c && restMatch t) = true := hb
          have hc : isWs c = true := ((Bool.and_eq_true _ _).mp hb').1
          have hrm : restMatch t = true := ((Bool.and_eq_true _ _).mp hb').2
          rw [restMatch_eq] at hrm
          rcases List.any_eq_true.mp hrm with ⟨lb, hlb, hbeq⟩
          have hlbdata : lb.data = t.dropWhile isWs := by simpa using hbeq
          refine ⟨⟨s.data.take i⟩, ⟨c :: t.takeWhile isWs⟩, lb, by simp, ?_, hlb, ?_⟩
          · intro x hx
            rcases List.mem_cons.mp hx with rfl | hx2
            · exact hc
            · exact List.mem_takeWhile_imp hx2
          · have hd : s.data = (s.data.take i ++ (c :: t.takeWhile isWs)) ++ lb.data := by
              rw [hlbdata, List.append_assoc]
              conv_lhs => rw [← List.take_append_drop i s.data, hdi]
              rw [List.cons_append, List.takeWhile_append_dropWhile isWs t]
            exact congrArg String.mk hd
    rw [subScan_id s.data hall]

/-- Concrete instantiation of the C7 theorem: the documented example
description is stored with "Health and Education" stripped, and a
description ending in no known label is stored unmodified. -/
theorem cc_trailing_label_stripping_witness :
    cleanDescription "SHOPPERS DRUG MART #13 TORONTO ON Health and Education" =
      "SHOPPERS DRUG MART #13 TORONTO ON"
    ∧ cleanDescription "PLAIN VENDOR NAME" = "PLAIN VENDOR NAME" := by
  constructor
  · have h := cc_trailing_label_stripping.1 "SHOPPERS DRUG MART #13 TORONTO ON"
      " " "Health and Education" (by decide) (by decide) (by decide)
    rw [show ("SHOPPERS DRUG MART #13 TORONTO ON Health and Education" : String) =
      "SHOPPERS DRUG MART #13 TORONTO ON" ++ " " ++ "Health and Education" from rfl]
    rw [h]
    decide
  · have h := cc_trailing_label_stripping.2 "PLAIN VENDOR NAME" ?hn
    case hn =>
      rintro ⟨d, ws, lb, hw1, hw2, hlb, he⟩
      have hsuf : lb.data <:+ ("PLAIN VENDOR NAME" : String).data :=
        ⟨(d ++ ws).data, by rw [he]; simp [String.data_append]⟩
      fin_cases hlb <;> exact absurd hsuf (by decide)
    rw [h]
    decide

/-! ## The end-to-end bank-row scenario (C4)

The only year-dependent step is `_parse_date`: the four digits of a
four-digit year are characterized explicitly so the strptime model can
be evaluated with the year symbolic. -/

theorem strExt (a b : String) (h : a.data = b.data) : a = b := by
  cases a with
  | mk la =>
    cases b with
    | mk lb => exact congrArg String.mk h

theorem isWs_digitChar (n : Nat) : isWs (digitChar n) = false := by
  unfold digitChar
  split
  all_goals rfl

theorem isDigitC_digitChar (n : Nat) : isDigitC (digitChar n) = true := by
  unfold digitChar
  split
  all_goals rfl

theorem digitVal_digitChar (n : Nat) : digitVal (digitChar n) = n % 10 := by
  have hlt : n % 10 < 10 := Nat.mod_lt _ (by omega)
  unfold digitChar
  split
  all_goals simp_all [digitVal]
  all_goals omega

theorem natDigitsAux_irrel (f1 : Nat) : ∀ (f2 n : Nat), n < f1 → n < f2 →
    natDigitsAux f1 n = natDigitsAux f2 n := by
  induction f1 with
  | zero => intro f2 n h1 _; omega
  | succ f ih =>
    intro f2 n h1 h2
    cases f2 with
    | zero => omega
    | succ g =>
      by_cases hn : n < 10
      · simp [natDigitsAux, hn]
      · simp only [natDigitsAux, hn, if_false]
        rw [ih g (n / 10) (by omega) (by omega)]

theorem natDigits_eq (n : Nat) :
    natDigits n =
      if n < 10 then [digitChar n]
      else natDigits (n / 10) ++ [digitChar (n % 10)] := by
  by_cases hn : n < 10
  · simp [natDigits, natDigitsAux, hn]
  · show natDigitsAux (n + 1) n = _
    rw [show natDigitsAux (n + 1) n =
      natDigitsAux n (n / 10) ++ [digitChar (n % 10)] from by
        simp [natDigitsAux, hn]]
    rw [natDigitsAux_irrel n (n / 10 + 1) (n / 10) (by omega) (by omega)]
    simp [natDigits, hn]

theorem natDigits_four (y : Nat) (h1 : 1000 ≤ y) (h2 : y ≤ 9999) :
    natDigits y = [digitChar (y / 1000), digitChar (y / 100 % 10),
      digitChar (y / 10 % 10), digitChar (y % 10)] := by
  have e1 : y / 10 / 10 = y / 100 := by rw [Nat.div_div_eq_div_mul]
  have e2 : y / 100 / 10 = y / 1000 := by rw [Nat.div_div_eq_div_mul]
  rw [natDigits_eq y, if_neg (by omega)]
  rw [natDigits_eq (y / 10), if_neg (by omega)]
  rw [natDigits_eq (y / 10 / 10), e1, if_neg (by omega)]
  rw [e2, natDigits_eq (y / 1000), if_pos (by omega)]
  simp

theorem countLeading_isWs_natDigits (y : Nat) (h1 : 1000 ≤ y) (h2 : y ≤ 9999) :
    countLeading isWs (natDigits y) = 0 := by
  rw [natDigits_four y h1 h2]
  simp [countLeading, isWs_digitChar]

theorem firstSomeL_singleton {α β : Type} (a : α) (f : α → Option β) :
    firstSomeL [a] f = f a := by
  cases h : f a <;> simp [firstSomeL, h]

theorem parse_date_sep2 (y : Nat) (h1 : 1000 ≤ y) (h2 : y ≤ 9999) :
    _parse_date "Sep 2" y = natStr y ++ "-09-02" := by
  have hcl : countLeading isWs (' ' :: natDigits y) = 1 := by
    have h0 := countLeading_isWs_natDigits y h1 h2
    simp [countLeading, h0]
    decide
  have hwsp : wsSplits (' ' :: natDigits y) = [natDigits y] := by
    simp only [wsSplits, hcl]
    rfl
  have hyv : digitsVal [digitChar (y / 1000), digitChar (y / 100 % 10),
      digitChar (y / 10 % 10), digitChar (y % 10)] = y := by
    simp [digitsVal, digitVal_digitChar]
    omega
  have hye : yearEnd (natDigits y) = some y := by
    rw [natDigits_four y h1 h2]
    simp [yearEnd, isDigitC_digitChar, hyv]
  have hsm : strptimeMatch ('S' :: 'e' :: 'p' :: ' ' :: '2' :: ' ' :: natDigits y) =
      some (9, 2, y) := by
    have hs1 : strptimeMatch ('S' :: 'e' :: 'p' :: ' ' :: '2' :: ' ' :: natDigits y) =
        firstSomeL ['2' :: ' ' :: natDigits y]
          (fun r2 => firstSomeL (dayCandidates r2)
            (fun dc => firstSomeL (wsSplits dc.2)
              (fun r4 => (yearEnd r4).map (fun yy => (9, dc.1, yy))))) := rfl
    rw [hs1, firstSomeL_singleton]
    rw [show dayCandidates ('2' :: ' ' :: natDigits y) =
      [(2, ' ' :: natDigits y)] from rfl, firstSomeL_singleton]
    rw [hwsp, firstSomeL_singleton, hye]
    rfl
  have hbdy : strptimeBDY ("Sep 2" ++ " " ++ natStr y) = some (9, 2, y) := by
    have hdata : ("Sep 2" ++ " " ++ natStr y).data =
        'S' :: 'e' :: 'p' :: ' ' :: '2' :: ' ' :: natDigits y := rfl
    simp only [strptimeBDY, hdata, hsm]
    have hd30 : daysInMonth 9 y = 30 := rfl
    rw [hd30]
    have hy1 : (1 : Nat) ≤ y := by omega
    simp [hy1]
  have hpd : _parse_date "Sep 2" y = fmtDate y 9 2 := by
    simp only [_parse_date, hbdy]
  rw [hpd]
  apply strExt
  show (natStr y ++ "-" ++ pad2 9 ++ "-" ++ pad2 2).data =
    (natStr y ++ "-09-02").data
  rw [show pad2 9 = "09" from rfl, show pad2 2 = "02" from rfl]
  simp only [String.data_append, List.append_assoc]
  congr 1

/-- C4: for the bank-account layout and any four-digit year, the page
containing the header "Date Description Withdrawals" followed by the row
"Sep 2 VISA DEBIT RETAIL PURCHASE 37.67 898.18" yields exactly one
transaction: date `<year>-09-02`, description
"VISA DEBIT RETAIL PURCHASE", amount -3767 cents (the extracted
magnitude 37.67 negated), balance 89818 cents stored unmodified. -/
theorem bank_row_end_to_end (year : Nat) (h1 : 1000 ≤ year) (h2 : year ≤ 9999) :
    _parse_bank_account_transactions year
      ["Date Description Withdrawals\nSep 2 VISA DEBIT RETAIL PURCHASE 37.67 898.18"] =
    [⟨natStr year ++ "-09-02", "VISA DEBIT RETAIL PURCHASE", -3767, some 89818⟩] := by
  have hred : _parse_bank_account_transactions year
      ["Date Description Withdrawals\nSep 2 VISA DEBIT RETAIL PURCHASE 37.67 898.18"] =
    [⟨_parse_date "Sep 2" year, "VISA DEBIT RETAIL PURCHASE", -3767, some 89818⟩] := rfl
  rw [hred, parse_date_sep2 year h1 h2]

/-- Concrete instantiation of the C4 theorem at the year 2025. -/
theorem bank_row_end_to_end_witness :
    _parse_bank_account_transactions 2025
      ["Date Description Withdrawals\nSep 2 VISA DEBIT RETAIL PURCHASE 37.67 898.18"] =
    [⟨"2025-09-02", "VISA DEBIT RETAIL PURCHASE", -3767, some 89818⟩] := by
  rw [bank_row_end_to_end 2025 (by decide) (by decide)]
  decide
